import Mathlib

/-!
Verification of the policy rule engine of `ciq-ally-competitor-intel`
(`src/rules_engine.py`, `src/rules_registry.py`, `src/models.py`).

Python strings are modelled as `List Char` (one entry per code point);
`str.lower` / `str.isalpha` / `str.isupper` are modelled at ASCII precision,
which covers every value the claims exercise.  Code that can raise a Python
exception is modelled in `Except String`, the error string naming the
exception class.  Python's `re` module is external to the repository, so the
regular-expression engine is kept abstract: every regex-dependent definition
is parameterised by `reValid` (does the pattern compile) and `reSearch`
(pattern, ignore-case flag, text ↦ does `search` find a match).  No claim
depends on the behaviour of the engine itself.
-/

/-- A Python `str`, as its sequence of code points. -/
abbrev Str := List Char

/-- The whitespace characters stripped by `str.strip`/`str.rstrip`
(ASCII fragment). -/
def isPySpace (c : Char) : Bool :=
  c = ' ' || c = '\t' || c = '\n' || c = '\x0d' || c = '\x0b' || c = '\x0c'

/-- Model of `str.lower` (ASCII fragment). -/
def lowerL (s : Str) : Str := s.map Char.toLower

/-- Model of `str.rstrip()`: drop trailing whitespace. -/
def rstripL (s : Str) : Str := (s.reverse.dropWhile isPySpace).reverse

/-- Model of `str.strip()`: drop leading and trailing whitespace. -/
def stripL (s : Str) : Str := rstripL (s.dropWhile isPySpace)

/-- Tests whether `needle` begins `h` (Python `startswith`; helper for substring
containment). -/
def hasPre : Str → Str → Bool
  | _, [] => true
  | [], _ :: _ => false
  | a :: as, b :: bs => a = b && hasPre as bs

/-- Model of Python's `needle in haystack` substring test: `hasSub haystack needle`. -/
def hasSub : Str → Str → Bool
  | [], needle => needle.isEmpty
  | h :: t, needle => hasPre (h :: t) needle || hasSub t needle

/-- Digits of a decimal literal to its value. -/
def digitsVal (s : Str) : Nat :=
  s.foldl (fun n c => n * 10 + (c.toNat - '0'.toNat)) 0

/-- A scalar YAML / Python value that can appear in a rule's `params`
mapping. -/
inductive PVal where
  | int (n : Int)
  | str (s : Str)
  | bool (b : Bool)
  | none
deriving DecidableEq, Repr

/-- Python truthiness of a `PVal` is false (`not v` is true) exactly here. -/
def PVal.falsy : PVal → Bool
  | .int n => n = 0
  | .str s => s.isEmpty
  | .bool b => !b
  | .none => true

/-- Python `int(v)`: accepts ints, bools and decimal string literals
(optionally signed, surrounded by whitespace); anything else raises. -/
def pyInt : PVal → Except String Int
  | .int n => .ok n
  | .bool b => .ok (if b then 1 else 0)
  | .none => .error "TypeError"
  | .str s =>
    let t := stripL s
    let (sign, digits) :=
      match t with
      | '-' :: rest => ((-1 : Int), rest)
      | '+' :: rest => ((1 : Int), rest)
      | _ => ((1 : Int), t)
    if digits.isEmpty || !digits.all Char.isDigit then .error "ValueError"
    else .ok (sign * digitsVal digits)

/-- A rule's `params` dict (keys are unique in a Python dict; first match
wins on lookup). -/
abbrev Params := List (String × PVal)

/-- Model of `dict.get(k)` on a params mapping. -/
def pget (p : Params) (k : String) : Option PVal :=
  (p.find? (fun kv => kv.1 = k)).map (·.2)

/-- A section value handed to a check: the SKU getters produce either a
string (`title`, `description`) or a list of strings (`bullets`,
`images`). -/
inductive Val where
  | str (s : Str)
  | list (xs : List Str)
deriving DecidableEq, Repr

section Checks

variable (reValid : Str → Bool) (reSearch : Str → Bool → Str → Bool)

/-- Model of `_rx(pattern, flags)` (rules_engine.py lines 32–35): computes the
`re.IGNORECASE` flag from `"i" in flags.lower()` (raising `AttributeError`
when `flags` is not a string), then compiles the pattern (raising
`TypeError` when the pattern is not a string, `re.error` when it does not
compile).  A compiled pattern is modelled as the pair
(pattern, ignore-case). -/
def _rx (pattern : PVal) (flags : PVal) : Except String (Str × Bool) := do
  let ic ← match flags with
    | .str f => Except.ok ((lowerL f).contains 'i')
    | _ => Except.error "AttributeError"
  match pattern with
  | .str p => if reValid p then .ok (p, ic) else .error "re.error"
  | _ => .error "TypeError"

/-- Model of `check_max_length` (lines 38–42). -/
def check_max_length (v : Val) (params : Params) : Except String Bool :=
  match v with
  | .list _ => .ok true
  | .str s =>
    match pget params "value" with
    | Option.none => .ok true
    | Option.some pv =>
      match pyInt pv with
      | .error e => .error e
      | .ok n => .ok ((s.length : Int) ≤ n)

/-- Model of `check_min_length` (lines 44–48). -/
def check_min_length (v : Val) (params : Params) : Except String Bool :=
  match v with
  | .list _ => .ok true
  | .str s =>
    match pget params "value" with
    | Option.none => .ok true
    | Option.some pv =>
      match pyInt pv with
      | .error e => .error e
      | .ok n => .ok ((s.length : Int) ≥ n)

/-- Model of `check_max_count` (lines 50–54). -/
def check_max_count (v : Val) (params : Params) : Except String Bool :=
  match v with
  | .str _ => .ok true
  | .list xs =>
    match pget params "value" with
    | Option.none => .ok true
    | Option.some pv =>
      match pyInt pv with
      | .error e => .error e
      | .ok n => .ok ((xs.length : Int) ≤ n)

/-- Model of `check_min_count` (lines 56–60). -/
def check_min_count (v : Val) (params : Params) : Except String Bool :=
  match v with
  | .str _ => .ok true
  | .list xs =>
    match pget params "value" with
    | Option.none => .ok true
    | Option.some pv =>
      match pyInt pv with
      | .error e => .error e
      | .ok n => .ok ((xs.length : Int) ≥ n)

/-- Model of `check_forbidden_regex` (lines 62–67). -/
def check_forbidden_regex (v : Val) (params : Params) : Except String Bool :=
  match v with
  | .list _ => .ok true
  | .str s =>
    let pattern := (pget params "pattern").getD .none
    if pattern.falsy then .ok true
    else
      match _rx reValid pattern ((pget params "flags").getD (.str [])) with
      | .error e => .error e
      | .ok r => .ok (!reSearch r.1 r.2 s)

/-- Model of `check_required_regex` (lines 69–74). -/
def check_required_regex (v : Val) (params : Params) : Except String Bool :=
  match v with
  | .list _ => .ok true
  | .str s =>
    let pattern := (pget params "pattern").getD .none
    if pattern.falsy then .ok true
    else
      match _rx reValid pattern ((pget params "flags").getD (.str [])) with
      | .error e => .error e
      | .ok r => .ok (reSearch r.1 r.2 s)

/-- Model of `check_forbidden_regex_each` (lines 76–82). -/
def check_forbidden_regex_each (v : Val) (params : Params) : Except String Bool :=
  match v with
  | .str _ => .ok true
  | .list xs =>
    let pattern := (pget params "pattern").getD .none
    if pattern.falsy then .ok true
    else
      match _rx reValid pattern ((pget params "flags").getD (.str [])) with
      | .error e => .error e
      | .ok r => .ok (xs.all fun x => !reSearch r.1 r.2 x)

end Checks

/-- Model of `check_no_ending_punct` (lines 84–87).  Per item the generator evaluates
`(not v) or (str(v).rstrip() and str(v).rstrip()[-1] not in bad)`; a
non-empty item whose `rstrip` is empty makes that expression falsy.
`set(list(...))` raises `TypeError` when the punctuation parameter is not a
string (non-iterable). -/
def check_no_ending_punct (v : Val) (params : Params) : Except String Bool :=
  match v with
  | .str _ => .ok true
  | .list xs =>
    match (pget params "punctuation").getD (.str (".;:!".data)) with
    | .str bad =>
      .ok (xs.all fun it =>
        it.isEmpty ||
          (match it.reverse.dropWhile isPySpace with
           | [] => false
           | c :: _ => !bad.contains c))
    | _ => .error "TypeError"

/-- Tests whether `\S+@\S+` matches somewhere: some `'@'` has a non-whitespace character
immediately before and after it. -/
def emailHit : Str → Bool
  | [] => false
  | [_] => false
  | a :: rest =>
    (match rest with
     | b :: c :: _ => !isPySpace a && b = '@' && !isPySpace c
     | _ => false) || emailHit rest

/-- Model of `check_no_urls_emails` (lines 89–91): the fixed case-insensitive pattern
`(https?://|www\.|\S+@\S+)`. -/
def check_no_urls_emails (v : Val) (_params : Params) : Except String Bool :=
  match v with
  | .list _ => .ok true
  | .str s =>
    let t := lowerL s
    .ok (!(hasSub t "http://".data || hasSub t "https://".data ||
           hasSub t "www.".data || emailHit s))

/-- The inner loop of `check_bullets_capitalized`: scan for the first
alphabetic character; pass when there is none. -/
def firstAlphaUpper : Str → Bool
  | [] => true
  | c :: rest => if c.isAlpha then c.isUpper else firstAlphaUpper rest

/-- Model of `check_bullets_capitalized` (lines 93–110). -/
def check_bullets_capitalized (v : Val) (_params : Params) : Except String Bool :=
  match v with
  | .str _ => .ok true
  | .list xs =>
    .ok (xs.all fun raw =>
      raw.isEmpty || firstAlphaUpper (raw.dropWhile (fun c => c ∈ ['-', '•', ' ', '\t'])))

/-- Model of `_NUMBER_WORDS` (lines 112–116). -/
def NUMBER_WORDS : List Str :=
  ["zero".data, "one".data, "two".data, "three".data, "four".data, "five".data,
   "six".data, "seven".data, "eight".data, "nine".data, "ten".data, "eleven".data,
   "twelve".data]

/-- Model of `check_bullets_numbers_as_numerals` (lines 118–129): an item trips the
check when `f" {word} "` is a substring of `f" {text} "` for some number
word, where `text` is the lower-cased item. -/
def check_bullets_numbers_as_numerals (v : Val) (_params : Params) : Except String Bool :=
  match v with
  | .str _ => .ok true
  | .list xs =>
    .ok (xs.all fun raw =>
      raw.isEmpty ||
        !(NUMBER_WORDS.any fun w =>
            hasSub (' ' :: (lowerL raw ++ [' '])) (' ' :: (w ++ [' ']))))

/-- Model of `check_image_constraint` (lines 131–137): placeholder, always passes. -/
def check_image_constraint (_v : Val) (_params : Params) : Except String Bool :=
  .ok true

/-- Model of `CHECKS.get(type)`: the `CHECKS` dict (lines 139–152) as its lookup
function; an unlisted type yields `None`. -/
def CHECKS_get (reValid : Str → Bool) (reSearch : Str → Bool → Str → Bool) :
    String → Option (Val → Params → Except String Bool)
  | "max_length" => Option.some check_max_length
  | "min_length" => Option.some check_min_length
  | "max_count" => Option.some check_max_count
  | "min_count" => Option.some check_min_count
  | "forbidden_regex" => Option.some (check_forbidden_regex reValid reSearch)
  | "required_regex" => Option.some (check_required_regex reValid reSearch)
  | "forbidden_regex_each" => Option.some (check_forbidden_regex_each reValid reSearch)
  | "no_ending_punct" => Option.some check_no_ending_punct
  | "no_urls_emails" => Option.some check_no_urls_emails
  | "bullets_capitalized" => Option.some check_bullets_capitalized
  | "bullets_numbers_as_numerals" => Option.some check_bullets_numbers_as_numerals
  | "image_constraint" => Option.some check_image_constraint
  | _ => Option.none

/-- A rule's `scope` mapping (`market` and `categories` keys, each possibly
absent). -/
structure Scope where
  market? : Option (List String) := Option.none
  categories? : Option (List Str) := Option.none
deriving DecidableEq, Repr

/-- The `Rule` dataclass (rules_engine.py lines 8–18).  `sec` and `ty` stand
for the source's `section` and `type` fields (`section` is a Lean keyword). -/
structure Rule where
  id : String
  sec : String
  ty : String
  params : Params
  severity : String := "warning"
  message : String := ""
  citation : Option String := Option.none
  policy_id : Option String := Option.none
  scope : Option Scope := Option.none
deriving DecidableEq, Repr

/-- A rule given as a plain mapping (deserialized YAML).  Each field models
the presence/absence of the corresponding dict key; keys outside this set
are never read by the engine. -/
structure RuleDict where
  id? : Option String := Option.none
  section? : Option String := Option.none
  type? : Option String := Option.none
  params? : Option Params := Option.none
  severity? : Option String := Option.none
  message? : Option String := Option.none
  citation? : Option String := Option.none
  policy_id? : Option String := Option.none
  scope? : Option Scope := Option.none
deriving DecidableEq, Repr

/-- Model of `RuleLike = Union[Rule, Dict]` (line 20). -/
inductive RuleLike where
  | rule (r : Rule)
  | dict (d : RuleDict)
deriving DecidableEq, Repr

/-- The `SKU` dataclass (models.py).  Fields the getters guard with
`or ""` / `or []` are modelled as options (Python would also accept `None`
there). -/
structure SKU where
  sku_id : String
  title : Option Str := Option.none
  bullets : Option (List Str) := Option.none
  description : Option Str := Option.none
  brand : Option String := Option.none
  category : Option String := Option.none
  image_urls : Option (List Str) := Option.none
deriving DecidableEq, Repr

/-- The `Finding` dataclass (models.py) plus the `severity` attribute that
`validate_with_rules` sets on every finding with `setattr`.  `sec` stands
for the source's `section` field. -/
structure Finding where
  sec : String
  rule_id : String
  passed : Bool
  message : String
  citation : Option String := Option.none
  severity : String := "warning"
deriving DecidableEq, Repr

/-- Model of `SECTION_GETTERS` (rules_engine.py lines 24–29). -/
def SECTION_GETTERS : String → Option (SKU → Val)
  | "title" => Option.some fun s => .str (s.title.getD [])
  | "bullets" => Option.some fun s => .list (s.bullets.getD [])
  | "description" => Option.some fun s => .str (s.description.getD [])
  | "images" => Option.some fun s => .list (s.image_urls.getD [])
  | _ => Option.none

/-- Model of `_as_rule` (lines 154–166): a `Rule` passes through; a mapping must have
`id`, `section` and `type` (each missing key raises `KeyError`, in that
order), all other keys are read with defaults. -/
def _as_rule : RuleLike → Except String Rule
  | .rule r => .ok r
  | .dict d =>
    match d.id? with
    | Option.none => .error "KeyError"
    | Option.some i =>
      match d.section? with
      | Option.none => .error "KeyError"
      | Option.some s =>
        match d.type? with
        | Option.none => .error "KeyError"
        | Option.some t =>
          .ok { id := i, sec := s, ty := t,
                params := d.params?.getD [],
                severity := d.severity?.getD "warning",
                message := d.message?.getD "",
                citation := d.citation?,
                policy_id := d.policy_id?,
                scope := d.scope? }

/-- Model of lines 196–213 of `validate_with_rules`: build the namespaced id, the
message (`rule.message or rule.id`, prefixed with `f"{policy_id}:{id} – "`
when `rule.policy_id` is truthy) and the finding, carrying the severity. -/
def mkFinding (rule : Rule) (passed : Bool) : Finding :=
  let message := if rule.message = "" then rule.id else rule.message
  match rule.policy_id with
  | Option.some pid =>
    if pid = "" then
      { sec := rule.sec, rule_id := rule.id, passed := passed,
        message := message, citation := rule.citation, severity := rule.severity }
    else
      { sec := rule.sec, rule_id := pid ++ ":" ++ rule.id, passed := passed,
        message := pid ++ ":" ++ rule.id ++ " – " ++ message,
        citation := rule.citation, severity := rule.severity }
  | Option.none =>
    { sec := rule.sec, rule_id := rule.id, passed := passed,
      message := message, citation := rule.citation, severity := rule.severity }

/-- The body of the `for raw in rules` loop of `validate_with_rules`
(lines 178–214): normalize (may raise `KeyError`), skip unknown sections,
skip unknown check types, evaluate the check (may raise), build the
finding.  `.ok none` means the rule was skipped. -/
def evalRule (reValid : Str → Bool) (reSearch : Str → Bool → Str → Bool)
    (sku : SKU) (raw : RuleLike) : Except String (Option Finding) :=
  match _as_rule raw with
  | .error e => .error e
  | .ok rule =>
    match SECTION_GETTERS rule.sec with
    | Option.none => .ok Option.none
    | Option.some getter =>
      match CHECKS_get reValid reSearch rule.ty with
      | Option.none => .ok Option.none
      | Option.some ck =>
        match ck (getter sku) rule.params with
        | .error e => .error e
        | .ok passed => .ok (Option.some (mkFinding rule passed))

/-- Model of `validate_with_rules` (lines 168–216): run every rule in order,
collecting the findings; the first exception aborts the whole call. -/
def validate_with_rules (reValid : Str → Bool) (reSearch : Str → Bool → Str → Bool)
    (sku : SKU) : List RuleLike → Except String (List Finding)
  | [] => .ok []
  | raw :: rest =>
    match evalRule reValid reSearch sku raw with
    | .error e => .error e
    | .ok Option.none => validate_with_rules reValid reSearch sku rest
    | .ok (Option.some f) =>
      match validate_with_rules reValid reSearch sku rest with
      | .error e => .error e
      | .ok fs => .ok (f :: fs)

/-- A pack's `meta` mapping, as a string-valued Python dict (association
list with unique keys; first match wins). -/
abbrev Meta := List (String × String)

/-- Model of `dict.get(k)` on a meta mapping. -/
def dget (m : Meta) (k : String) : Option String :=
  (m.find? (fun kv => kv.1 = k)).map (·.2)

/-- Model of `m[k] = v`: overwrite in place, or append when the key is new. -/
def dset (m : Meta) (k : String) (v : String) : Meta :=
  if (dget m k).isSome then m.map (fun kv => if kv.1 = k then (k, v) else kv)
  else m ++ [(k, v)]

/-- Python 3.9 `a | b` on dicts: keys of `a` (values overridden by `b`
where present) followed by the keys only `b` has. -/
def dictUnion (a b : Meta) : Meta :=
  a.map (fun kv => (kv.1, (dget b kv.1).getD kv.2)) ++
    b.filter (fun kv => (dget a kv.1).isNone)

/-- A YAML value found at a document's `meta` key: a mapping, or any
non-mapping value (string, list, number, null, …), of which the code only
ever observes the truthiness before raising — so non-mapping values are
split into truthy and falsy. -/
inductive MVal where
  | dict (m : Meta)
  | otherTruthy
  | otherFalsy
deriving DecidableEq, Repr

/-- A parsed YAML document, covering every shape `load_all_rules`
distinguishes: a mapping (of which only the `meta` and `rules` keys are
read; the `meta` value may itself be mis-typed), a bare list of rule
mappings, or a non-mapping non-list scalar (string, number, bool, null),
of which only the truthiness matters before `.get` raises
`AttributeError`.  A `rules` value that is not a list is carried into the
pack without raising (it only raises later, in `select_rules`) and is
collapsed in the model. -/
inductive Yaml where
  | dict (meta? : Option MVal) (rules? : Option (List RuleDict))
  | list (rs : List RuleDict)
  | scalar (truthy : Bool)
deriving DecidableEq, Repr

/-- State of `rules.yaml`/`meta.yaml` in a policy directory: absent,
present but unparseable, or parsed. -/
inductive FileState where
  | absent
  | malformed
  | parsed (y : Yaml)
deriving DecidableEq, Repr

/-- One entry of `Path(root).iterdir()`. -/
structure DirEntry where
  name : String
  isDir : Bool
  rulesFile : FileState := .absent
  metaFile : FileState := .absent
deriving DecidableEq, Repr

/-- Model of `_safe_load(path) or {}` (rules_registry.py lines 4–9, 22–23): a
missing or unparseable file, and any falsy document (an empty list, or a
falsy scalar such as `null`, `""`, `0`, `false`), becomes the empty
mapping. -/
def loadOr : FileState → Yaml
  | .absent => .dict Option.none Option.none
  | .malformed => .dict Option.none Option.none
  | .parsed (.list []) => .dict Option.none Option.none
  | .parsed (.scalar false) => .dict Option.none Option.none
  | .parsed y => y

/-- Model of `<doc>.get("meta") or {}` applied to a `meta` value: an absent
key or a falsy value becomes the empty mapping; a truthy non-mapping value
stays (it makes the `|` union raise later). -/
def orEmpty : Option MVal → MVal
  | Option.some (.dict m) => .dict m
  | Option.some .otherTruthy => .otherTruthy
  | _ => .dict []

/-- Model of `meta_doc.get("meta") or {}` (line 34): raises
`AttributeError` when the metadata document is not a mapping (a truthy
list or scalar). -/
def getMetaOr : Yaml → Except String MVal
  | .dict m? _ => .ok (orEmpty m?)
  | .list _ => .error "AttributeError"
  | .scalar _ => .error "AttributeError"

/-- Model of `meta_doc.get("meta", {})` (line 31, bare-list branch): like
`getMetaOr` but without the `or {}` coercion — a present falsy value stays
(it makes the `policy_id` defaulting raise later). -/
def getMetaDefault : Yaml → Except String MVal
  | .dict m? _ => .ok (m?.getD (.dict []))
  | .list _ => .error "AttributeError"
  | .scalar _ => .error "AttributeError"

/-- An in-memory pack `{meta, rules}`. -/
structure Pack where
  meta : Meta
  rules : List RuleDict
deriving DecidableEq, Repr

/-- Model of lines 37–38: default `meta["policy_id"]` to the directory name when the
key is missing or its value is falsy. -/
def defaultPolicyId (m : Meta) (dirName : String) : Meta :=
  match dget m "policy_id" with
  | Option.none => dset m "policy_id" dirName
  | Option.some v => if v = "" then dset m "policy_id" dirName else m

/-- The body of the `for policy_dir in ...` loop of `load_all_rules`
(lines 13–40): skip non-directories and directories without a rules file,
normalize the two permitted document shapes, default the policy id.
`.ok none` means the directory contributes no pack.  Crash paths: a truthy
scalar rules document raises `AttributeError` at `rules_doc.get("rules")`
(line 33); a non-mapping metadata document raises `AttributeError` at
`meta_doc.get("meta")` (lines 31/34); a non-mapping truthy `meta` value
raises `TypeError` at the `|` union (line 34); in the bare-list branch any
non-mapping `meta` value raises `TypeError` at the `policy_id` membership
test or item assignment (lines 37–38). -/
def processDir (e : DirEntry) : Except String (Option Pack) :=
  if !e.isDir then .ok Option.none
  else if e.rulesFile = .absent then .ok Option.none
  else
    let rules_doc := loadOr e.rulesFile
    let meta_doc := loadOr e.metaFile
    match rules_doc with
    | .list rs =>
      match getMetaDefault meta_doc with
      | .error er => .error er
      | .ok (.dict m) => .ok (Option.some ⟨defaultPolicyId m e.name, rs⟩)
      | .ok _ => .error "TypeError"
    | .scalar _ => .error "AttributeError"
    | .dict rm? rr? =>
      match getMetaOr meta_doc with
      | .error er => .error er
      | .ok mv =>
        match orEmpty rm?, mv with
        | .dict a, .dict b =>
          .ok (Option.some ⟨defaultPolicyId (dictUnion a b) e.name, rr?.getD []⟩)
        | _, _ => .error "TypeError"

/-- Model of `load_all_rules` (lines 11–41) over a directory listing. -/
def load_all_rules : List DirEntry → Except String (List Pack)
  | [] => .ok []
  | e :: rest =>
    match processDir e with
    | .error er => .error er
    | .ok p? =>
      match load_all_rules rest with
      | .error er => .error er
      | .ok ps => .ok (match p? with | Option.some p => p :: ps | Option.none => ps)

/-- Model of `_norm` (line 43): `(s or "").strip().lower()`. -/
def _norm (s : Str) : Str := lowerL (stripL s)

/-- Model of `_cat_match` (lines 45–57).  Note the `if c` filter: requested
categories that are empty strings are dropped before normalization. -/
def _cat_match (rule_scope_cats : Option (List Str)) (want_cats : List Str) : Bool :=
  if want_cats.isEmpty then true
  else
    match rule_scope_cats with
    | Option.none => true
    | Option.some [] => true
    | Option.some cats =>
      let rc := cats.map _norm
      let wc := (want_cats.filter (fun c => !c.isEmpty)).map _norm
      rc.any fun a => wc.any fun b => a = b || hasSub b a || hasSub a b

/-- Market admission in `select_rules` (line 65):
`(not scope.get("market")) or (market in scope["market"])`. -/
def marketOk (scope : Scope) (market : String) : Bool :=
  match scope.market? with
  | Option.none => true
  | Option.some [] => true
  | Option.some l => l.contains market

/-- Model of `select_rules` (lines 59–72): nested loops over packs and rules; an
admitted rule is shallow-copied and annotated with the owning pack's
policy id. -/
def select_rules : List Pack → String → List Str → List RuleDict
  | [], _, _ => []
  | p :: ps, market, categories =>
    ((p.rules.filter fun r =>
        let scope := r.scope?.getD {}
        marketOk scope market && _cat_match scope.categories? categories).map
      fun r => { r with policy_id? := Option.some ((dget p.meta "policy_id").getD "unknown_policy") })
    ++ select_rules ps market categories

/-- Modelled from the claim's words (C9): `w` occurs in `t` as a standalone
token — an occurrence delimited on the left by the start of the string or a
space, and on the right by the end of the string or a space. -/
def StandaloneTok (w t : Str) : Prop :=
  ∃ p q, t = p ++ (w ++ q) ∧ (p = [] ∨ ∃ p', p = p' ++ [' ']) ∧
    (q = [] ∨ ∃ q', q = ' ' :: q')

/-- Modelled from the claim's words (C2): the inclusion condition as the
claim states it — market membership, and category match by equality or
substring containment in either direction, with no special-casing of empty
requested categories. -/
def c2ClaimIncluded (r : RuleDict) (market : String) (categories : List Str) : Bool :=
  (let sc := r.scope?.getD {}
   (match sc.market? with
    | Option.none => true
    | Option.some [] => true
    | Option.some l => l.contains market) &&
   (categories.isEmpty ||
    match sc.categories? with
    | Option.none => true
    | Option.some [] => true
    | Option.some cats =>
      cats.any fun a => categories.any fun b =>
        _norm a = _norm b || hasSub (_norm b) (_norm a) || hasSub (_norm a) (_norm b)))

/-- The per-rule outcome of `validate_with_rules` viewed as an option:
`none` both for a skipped rule and for a rule whose evaluation raises. -/
def evalRuleO (reValid : Str → Bool) (reSearch : Str → Bool → Str → Bool)
    (sku : SKU) (raw : RuleLike) : Option Finding :=
  match evalRule reValid reSearch sku raw with
  | .ok o => o
  | .error _ => Option.none

/-- Did a modelled Python computation complete without raising? -/
def exOk : Except String α → Bool
  | .ok _ => true
  | .error _ => false

/-- Well-formedness of a rule's params for its check type: the conditions
under which the check's evaluation cannot raise (numeric `value`, pattern
falsy or a compilable string with string `flags`, string `punctuation`). -/
def paramsOkFor (reValid : Str → Bool) (ty : String) (p : Params) : Bool :=
  if ty = "max_length" || ty = "min_length" || ty = "max_count" || ty = "min_count" then
    match pget p "value" with
    | Option.none => true
    | Option.some pv => exOk (pyInt pv)
  else if ty = "forbidden_regex" || ty = "required_regex" || ty = "forbidden_regex_each" then
    (let pat := (pget p "pattern").getD .none
     pat.falsy ||
       (match pat, (pget p "flags").getD (.str []) with
        | .str ps, .str _ => reValid ps
        | _, _ => false))
  else if ty = "no_ending_punct" then
    (match (pget p "punctuation").getD (.str ".;:!".data) with
     | .str _ => true
     | _ => false)
  else true

/-- A rule-like input on which `validate_with_rules` cannot raise: a
mapping must carry `id`, `section` and `type`, and the params must be
well-formed for the check type. -/
def goodRuleLike (reValid : Str → Bool) : RuleLike → Bool
  | .rule r => paramsOkFor reValid r.ty r.params
  | .dict d => d.id?.isSome && d.section?.isSome && d.type?.isSome &&
      paramsOkFor reValid (d.type?.getD "") (d.params?.getD [])

/-- Well-formedness of one directory entry, sufficient for
`load_all_rules` not to raise on it: once the `or {}` coercions are
applied, the rules document is a mapping or a rule list, the metadata
document is a mapping, and every `meta` value involved is itself a
mapping.  Skipped entries (non-directories, no rules file) are
unconstrained. -/
def dirOkB (e : DirEntry) : Bool :=
  if !e.isDir || e.rulesFile = FileState.absent then true
  else
    match loadOr e.rulesFile, loadOr e.metaFile with
    | .list _, .dict m? _ =>
      (match m?.getD (MVal.dict []) with
       | .dict _ => true
       | _ => false)
    | .dict rm? _, .dict m? _ =>
      (match orEmpty rm? with
       | .dict _ => true
       | _ => false) &&
      (match orEmpty m? with
       | .dict _ => true
       | _ => false)
    | _, _ => false

/-! ## Helper lemmas -/

theorem hasPre_iff (h n : Str) : hasPre h n = true ↔ ∃ q, h = n ++ q := by
  induction n generalizing h with
  | nil => simp [hasPre]
  | cons b bs ih =>
    cases h with
    | nil => simp [hasPre]
    | cons a t =>
      simp only [hasPre, Bool.and_eq_true, decide_eq_true_eq, ih, List.cons_append,
        List.cons.injEq]
      constructor
      · rintro ⟨rfl, q, rfl⟩; exact ⟨q, rfl, rfl⟩
      · rintro ⟨q, rfl, rfl⟩; exact ⟨rfl, q, rfl⟩

theorem hasSub_iff (h n : Str) : hasSub h n = true ↔ ∃ p q, h = p ++ (n ++ q) := by
  induction h with
  | nil =>
    simp only [hasSub, List.isEmpty_iff]
    constructor
    · rintro rfl; exact ⟨[], [], rfl⟩
    · rintro ⟨p, q, hpq⟩
      rcases List.append_eq_nil.mp hpq.symm with ⟨rfl, h2⟩
      exact (List.append_eq_nil.mp h2).1
  | cons a t ih =>
    simp only [hasSub, Bool.or_eq_true, hasPre_iff, ih]
    constructor
    · rintro (⟨q, hq⟩ | ⟨p, q, hpq⟩)
      · exact ⟨[], q, by simpa using hq⟩
      · exact ⟨a :: p, q, by simp [hpq]⟩
    · rintro ⟨p, q, hpq⟩
      cases p with
      | nil => exact Or.inl ⟨q, by simpa using hpq⟩
      | cons x p' =>
        right
        rw [List.cons_append] at hpq
        exact ⟨p', q, (List.cons.injEq .. ▸ hpq).2⟩

theorem snoc_split (t u : Str) (c : Char) (q : Str) (E : t ++ [c] = u ++ q) :
    (q = [] ∧ t ++ [c] = u) ∨ ∃ q', q = q' ++ [c] ∧ t = u ++ q' := by
  rcases List.eq_nil_or_concat q with rfl | ⟨q', x, rfl⟩
  · exact Or.inl ⟨rfl, by simpa using E⟩
  · right
    rw [List.concat_eq_append, show u ++ (q' ++ [x]) = (u ++ q') ++ [x] by simp] at E
    obtain ⟨h1, h2⟩ := List.append_inj' E rfl
    injection h2 with hx _
    exact ⟨q', by rw [List.concat_eq_append, hx], h1⟩

theorem padded_iff (w t : Str) :
    hasSub (' ' :: (t ++ [' '])) (' ' :: (w ++ [' '])) = true ↔ StandaloneTok w t := by
  rw [hasSub_iff]
  constructor
  · rintro ⟨p, q, E⟩
    cases p with
    | nil =>
      rw [List.nil_append, List.cons_append] at E
      injection E with h1 E'
      rcases snoc_split _ _ _ _ E' with ⟨rfl, E2⟩ | ⟨q', rfl, E2⟩
      · have ht := (List.append_inj' E2 rfl).1
        exact ⟨[], [], by simp [ht], Or.inl rfl, Or.inl rfl⟩
      · exact ⟨[], ' ' :: q', by simp [E2], Or.inl rfl, Or.inr ⟨q', rfl⟩⟩
    | cons x p' =>
      rw [List.cons_append] at E
      injection E with h1 E'
      rw [show p' ++ ((' ' :: (w ++ [' '])) ++ q) = ((p' ++ [' ']) ++ (w ++ [' '])) ++ q by
        simp] at E'
      rcases snoc_split _ _ _ _ E' with ⟨rfl, E2⟩ | ⟨q', rfl, E2⟩
      · rw [show (p' ++ [' ']) ++ (w ++ [' ']) = ((p' ++ [' ']) ++ w) ++ [' '] by simp] at E2
        have ht := (List.append_inj' E2 rfl).1
        exact ⟨p' ++ [' '], [], by simp [ht], Or.inr ⟨p', rfl⟩, Or.inl rfl⟩
      · exact ⟨p' ++ [' '], ' ' :: q', by simp [E2], Or.inr ⟨p', rfl⟩, Or.inr ⟨q', rfl⟩⟩
  · rintro ⟨p, q, rfl, hp, hq⟩
    rcases hp with rfl | ⟨p', rfl⟩ <;> rcases hq with rfl | ⟨q', rfl⟩
    · exact ⟨[], [], by simp⟩
    · exact ⟨[], q' ++ [' '], by simp⟩
    · exact ⟨' ' :: p', [], by simp⟩
    · exact ⟨' ' :: p', q' ++ [' '], by simp⟩

theorem number_words_ne_nil : ∀ w ∈ NUMBER_WORDS, w ≠ ([] : Str) := by decide

theorem numerals_all_iff (xs : List Str) :
    (xs.all fun raw => raw.isEmpty ||
        !(NUMBER_WORDS.any fun w =>
            hasSub (' ' :: (lowerL raw ++ [' '])) (' ' :: (w ++ [' '])))) = true ↔
      ∀ it ∈ xs, ∀ w ∈ NUMBER_WORDS, ¬ StandaloneTok w (lowerL it) := by
  simp only [List.all_eq_true, Bool.or_eq_true, List.isEmpty_iff, Bool.not_eq_true',
    List.any_eq_false, padded_iff]
  refine forall_congr' fun it => imp_congr_right fun _ => ?_
  constructor
  · rintro (rfl | h)
    · intro w hw hst
      rcases hst with ⟨p, q, hpq, -, -⟩
      rcases List.append_eq_nil.mp ((by simpa [lowerL] using hpq.symm) :
        p ++ (w ++ q) = []) with ⟨-, h2⟩
      exact number_words_ne_nil w hw (List.append_eq_nil.mp h2).1
    · exact h
  · exact Or.inr

/-! ## Claim theorems -/

/-- Claim C9 : for every list value, `check_bullets_numbers_as_numerals`
returns false exactly when some item contains a spelled-out number word
(zero through twelve) as a standalone token — an occurrence delimited by
spaces or the string boundaries — matched case-insensitively; otherwise it
returns true. -/
theorem c9_bullets_numbers_as_numerals (xs : List Str) (p : Params) :
    (check_bullets_numbers_as_numerals (.list xs) p = .ok false ↔
      ∃ it ∈ xs, ∃ w ∈ NUMBER_WORDS, StandaloneTok w (lowerL it)) ∧
    (check_bullets_numbers_as_numerals (.list xs) p = .ok true ↔
      ¬ ∃ it ∈ xs, ∃ w ∈ NUMBER_WORDS, StandaloneTok w (lowerL it)) := by
  have e : check_bullets_numbers_as_numerals (.list xs) p =
      .ok (xs.all fun raw => raw.isEmpty || !(NUMBER_WORDS.any fun w =>
            hasSub (' ' :: (lowerL raw ++ [' '])) (' ' :: (w ++ [' '])))) := rfl
  rw [e]
  simp only [Except.ok.injEq]
  constructor
  · rw [Bool.eq_false_iff, Ne, numerals_all_iff]
    push_neg
    rfl
  · rw [numerals_all_iff]
    push_neg
    rfl

/-- Claim C1 : every check in the Check Library is fail-open: a value of the
wrong shape for the check (a list for the string-oriented checks, a string
for the list-oriented ones) makes it return `True`, and a missing required
params key (`value` for the length/count checks, `pattern` for the regex
checks) makes it return `True` for any value; in neither case does the
check raise. -/
theorem c1_checks_fail_open (reValid : Str → Bool) (reSearch : Str → Bool → Str → Bool)
    (s : Str) (xs : List Str) (v : Val) (p : Params) :
    check_max_length (.list xs) p = .ok true ∧
    check_min_length (.list xs) p = .ok true ∧
    check_forbidden_regex reValid reSearch (.list xs) p = .ok true ∧
    check_required_regex reValid reSearch (.list xs) p = .ok true ∧
    check_no_urls_emails (.list xs) p = .ok true ∧
    check_max_count (.str s) p = .ok true ∧
    check_min_count (.str s) p = .ok true ∧
    check_forbidden_regex_each reValid reSearch (.str s) p = .ok true ∧
    check_no_ending_punct (.str s) p = .ok true ∧
    check_bullets_capitalized (.str s) p = .ok true ∧
    check_bullets_numbers_as_numerals (.str s) p = .ok true ∧
    check_image_constraint v p = .ok true ∧
    (pget p "value" = Option.none →
      check_max_length v p = .ok true ∧ check_min_length v p = .ok true ∧
      check_max_count v p = .ok true ∧ check_min_count v p = .ok true) ∧
    (pget p "pattern" = Option.none →
      check_forbidden_regex reValid reSearch v p = .ok true ∧
      check_required_regex reValid reSearch v p = .ok true ∧
      check_forbidden_regex_each reValid reSearch v p = .ok true) := by
  refine ⟨rfl, rfl, rfl, rfl, rfl, rfl, rfl, rfl, rfl, rfl, rfl, rfl, ?_, ?_⟩
  · intro h
    cases v <;>
      simp [check_max_length, check_min_length, check_max_count, check_min_count, h]
  · intro h
    cases v <;>
      simp [check_forbidden_regex, check_required_regex, check_forbidden_regex_each, h,
        PVal.falsy]

theorem c1_checks_fail_open_witness :
    check_max_length (Val.str "abc".data) [] = .ok true ∧
    check_forbidden_regex (fun _ => true) (fun _ _ _ => false)
      (Val.str "abc".data) [] = .ok true := by
  obtain ⟨-, -, -, -, -, -, -, -, -, -, -, -, hv, hp⟩ :=
    c1_checks_fail_open (fun _ => true) (fun _ _ _ => false) [] []
      (Val.str "abc".data) []
  exact ⟨(hv rfl).1, (hp rfl).1⟩

/-- Claim C10 : a rule passed as a plain mapping must carry `id`, `section`
and `type`: if any of the three is missing, `validate_with_rules` raises a
`KeyError` during normalization (producing no findings) rather than
skipping the rule; when all three are present, normalization succeeds and
every other key (`params`, `severity`, `message`, `citation`, `policy_id`,
`scope`) is optional, read with its default. -/
theorem c10_required_dict_keys (reValid : Str → Bool) (reSearch : Str → Bool → Str → Bool)
    (sku : SKU) (d : RuleDict) (rest : List RuleLike) :
    ((d.id? = Option.none ∨ d.section? = Option.none ∨ d.type? = Option.none) →
      validate_with_rules reValid reSearch sku (.dict d :: rest) = .error "KeyError") ∧
    (∀ i s t, d.id? = Option.some i → d.section? = Option.some s →
      d.type? = Option.some t →
      _as_rule (.dict d) = .ok
        { id := i, sec := s, ty := t, params := d.params?.getD [],
          severity := d.severity?.getD "warning", message := d.message?.getD "",
          citation := d.citation?, policy_id := d.policy_id?, scope := d.scope? }) := by
  constructor
  · intro h
    rcases h with h | h | h
    · simp [validate_with_rules, evalRule, _as_rule, h]
    · cases hid : d.id? <;>
        simp [validate_with_rules, evalRule, _as_rule, h, hid]
    · cases hid : d.id? <;> cases hsec : d.section? <;>
        simp [validate_with_rules, evalRule, _as_rule, h, hid, hsec]
  · intro i s t hi hs ht
    simp [_as_rule, hi, hs, ht]

theorem c10_required_dict_keys_witness :
    validate_with_rules (fun _ => true) (fun _ _ _ => false) { sku_id := "s" }
      [.dict { section? := Option.some "title", type? := Option.some "max_length" }] =
      .error "KeyError" ∧
    _as_rule (.dict { id? := Option.some "R", section? := Option.some "title",
                      type? := Option.some "max_length" }) =
      .ok { id := "R", sec := "title", ty := "max_length", params := [],
            severity := "warning", message := "", citation := Option.none,
            policy_id := Option.none, scope := Option.none } := by
  constructor
  · exact (c10_required_dict_keys (fun _ => true) (fun _ _ _ => false) { sku_id := "s" }
      { section? := Option.some "title", type? := Option.some "max_length" } []).1
      (Or.inl rfl)
  · exact (c10_required_dict_keys (fun _ => true) (fun _ _ _ => false) { sku_id := "s" }
      { id? := Option.some "R", section? := Option.some "title",
        type? := Option.some "max_length" } []).2 "R" "title" "max_length" rfl rfl rfl

theorem mkFinding_passed (rule : Rule) (b : Bool) : (mkFinding rule b).passed = b := by
  cases hp : rule.policy_id with
  | none => simp [mkFinding, hp]
  | some pid => by_cases hne : pid = "" <;> simp [mkFinding, hp, hne]

theorem mkFinding_severity (rule : Rule) (b : Bool) :
    (mkFinding rule b).severity = rule.severity := by
  cases hp : rule.policy_id with
  | none => simp [mkFinding, hp]
  | some pid => by_cases hne : pid = "" <;> simp [mkFinding, hp, hne]

/-- Claim C8 : a finding emitted by `validate_with_rules` is built by
`mkFinding`, and for a rule carrying a (truthy) `policy_id` its `rule_id`
is `"<policy_id>:<id>"` and its message is that namespaced id, a space, an
en dash, a space, then the rule's message (or the rule's id when the
message is empty); without a `policy_id`, the rule id is bare and the
message unprefixed.  "Carries a policy_id" is Python truthiness
(`if rule.policy_id`), so the three cases — a non-empty `policy_id`, no
`policy_id` at all, and an empty-string `policy_id` (falsy, hence
"carries none": bare id, unprefixed message, exactly as the code does) —
are each settled by a conjunct below. -/
theorem c8_namespacing (rule : Rule) (passed : Bool) :
    (∀ pid, rule.policy_id = Option.some pid → pid ≠ "" →
      (mkFinding rule passed).rule_id = pid ++ ":" ++ rule.id ∧
      (mkFinding rule passed).message =
        pid ++ ":" ++ rule.id ++ " – " ++
          (if rule.message = "" then rule.id else rule.message)) ∧
    (rule.policy_id = Option.none →
      (mkFinding rule passed).rule_id = rule.id ∧
      (mkFinding rule passed).message =
        (if rule.message = "" then rule.id else rule.message)) ∧
    (rule.policy_id = Option.some "" →
      (mkFinding rule passed).rule_id = rule.id ∧
      (mkFinding rule passed).message =
        (if rule.message = "" then rule.id else rule.message)) ∧
    (∀ reValid reSearch sku f,
      evalRule reValid reSearch sku (.rule rule) = .ok (Option.some f) →
      f = mkFinding rule f.passed) := by
  refine ⟨?_, ?_, ?_, ?_⟩
  · intro pid hpid hne
    simp [mkFinding, hpid, hne]
  · intro hnone
    simp [mkFinding, hnone]
  · intro hemp
    simp [mkFinding, hemp]
  · intro reValid reSearch sku f h
    rw [evalRule] at h
    simp only [_as_rule] at h
    split at h
    · exact absurd h (by simp)
    · split at h
      · exact absurd h (by simp)
      · split at h
        · exact absurd h (by simp)
        · simp only [Except.ok.injEq, Option.some.injEq] at h
          subst h
          rw [mkFinding_passed]

theorem c8_namespacing_witness :
    (mkFinding { id := "TITLE_LENGTH", sec := "title", ty := "max_length", params := [],
                 policy_id := Option.some "pet-supplies_ae_2018" } true).rule_id =
      "pet-supplies_ae_2018:TITLE_LENGTH" ∧
    (mkFinding { id := "TITLE_LENGTH", sec := "title", ty := "max_length", params := [],
                 policy_id := Option.some "pet-supplies_ae_2018" } true).message =
      "pet-supplies_ae_2018:TITLE_LENGTH – TITLE_LENGTH" ∧
    (mkFinding { id := "TITLE_LENGTH", sec := "title", ty := "max_length", params := [],
                 policy_id := Option.some "" } true).rule_id = "TITLE_LENGTH" := by
  obtain ⟨h1, h2⟩ :=
    (c8_namespacing { id := "TITLE_LENGTH", sec := "title", ty := "max_length",
                      params := [],
                      policy_id := Option.some "pet-supplies_ae_2018" } true).1
      "pet-supplies_ae_2018" rfl (by decide)
  obtain ⟨h3, -⟩ :=
    (c8_namespacing { id := "TITLE_LENGTH", sec := "title", ty := "max_length",
                      params := [], policy_id := Option.some "" } true).2.2.1 rfl
  exact ⟨h1, by simpa using h2, h3⟩

theorem evalRule_eq (reValid : Str → Bool) (reSearch : Str → Bool → Str → Bool)
    (sku : SKU) (raw : RuleLike) (rule : Rule) (hr : _as_rule raw = .ok rule) :
    evalRule reValid reSearch sku raw =
      match SECTION_GETTERS rule.sec with
      | Option.none => .ok Option.none
      | Option.some getter =>
        match CHECKS_get reValid reSearch rule.ty with
        | Option.none => .ok Option.none
        | Option.some ck =>
          match ck (getter sku) rule.params with
          | .error e => .error e
          | .ok passed => .ok (Option.some (mkFinding rule passed)) := by
  rw [evalRule, hr]

theorem validate_ok_filterMap (reValid : Str → Bool) (reSearch : Str → Bool → Str → Bool)
    (sku : SKU) :
    ∀ (rules : List RuleLike) (fs : List Finding),
      validate_with_rules reValid reSearch sku rules = .ok fs →
      fs = rules.filterMap (evalRuleO reValid reSearch sku) := by
  intro rules
  induction rules with
  | nil =>
    intro fs h
    rw [validate_with_rules] at h
    simp only [Except.ok.injEq] at h
    rw [← h, List.filterMap_nil]
  | cons raw rest ih =>
    intro fs h
    rw [validate_with_rules] at h
    cases he : evalRule reValid reSearch sku raw with
    | error e =>
      rw [he] at h
      simp at h
    | ok o =>
      rw [he] at h
      cases o with
      | none =>
        have ho : evalRuleO reValid reSearch sku raw = Option.none := by
          rw [evalRuleO, he]
        rw [List.filterMap_cons, ho]
        exact ih fs h
      | some f =>
        have ho : evalRuleO reValid reSearch sku raw = Option.some f := by
          rw [evalRuleO, he]
        replace h : (match validate_with_rules reValid reSearch sku rest with
            | Except.error e => Except.error e
            | Except.ok fs' => Except.ok (f :: fs')) = Except.ok fs := h
        cases hrest : validate_with_rules reValid reSearch sku rest with
        | error e =>
          rw [hrest] at h
          simp at h
        | ok fs' =>
          rw [hrest] at h
          simp only [Except.ok.injEq] at h
          rw [List.filterMap_cons, ho, ← h, ih fs' hrest]

theorem validate_ok_evalRule (reValid : Str → Bool) (reSearch : Str → Bool → Str → Bool)
    (sku : SKU) :
    ∀ (rules : List RuleLike) (fs : List Finding),
      validate_with_rules reValid reSearch sku rules = .ok fs →
      ∀ raw ∈ rules, ∃ o, evalRule reValid reSearch sku raw = .ok o := by
  intro rules
  induction rules with
  | nil =>
    intro fs h raw hraw
    exact absurd hraw (List.not_mem_nil raw)
  | cons raw0 rest ih =>
    intro fs h raw hraw
    rw [validate_with_rules] at h
    cases he : evalRule reValid reSearch sku raw0 with
    | error e =>
      rw [he] at h
      simp at h
    | ok o =>
      rw [he] at h
      rcases List.mem_cons.mp hraw with rfl | hraw'
      · exact ⟨o, he⟩
      · cases o with
        | none => exact ih fs h raw hraw'
        | some f =>
          replace h : (match validate_with_rules reValid reSearch sku rest with
              | Except.error e => Except.error e
              | Except.ok fs' => Except.ok (f :: fs')) = Except.ok fs := h
          cases hrest : validate_with_rules reValid reSearch sku rest with
          | error e =>
            rw [hrest] at h
            simp at h
          | ok fs' => exact ih fs' hrest raw hraw'

theorem evalRuleO_eq (reValid : Str → Bool) (reSearch : Str → Bool → Str → Bool)
    (sku : SKU) (raw : RuleLike) (rule : Rule) (hr : _as_rule raw = .ok rule) :
    evalRuleO reValid reSearch sku raw =
      match SECTION_GETTERS rule.sec with
      | Option.none => Option.none
      | Option.some getter =>
        match CHECKS_get reValid reSearch rule.ty with
        | Option.none => Option.none
        | Option.some ck =>
          match ck (getter sku) rule.params with
          | .error _ => Option.none
          | .ok passed => Option.some (mkFinding rule passed) := by
  rw [evalRuleO, evalRule_eq reValid reSearch sku raw rule hr]
  rcases hg : SECTION_GETTERS rule.sec with - | g
  · rfl
  · rcases hc : CHECKS_get reValid reSearch rule.ty with - | ck
    · rfl
    · rcases he : ck (g sku) rule.params with e | b <;> simp [he]

/-- Claim C5 counterexample : a rule whose severity is `"critical"` — absent
from {info, warning, error} — yields a finding whose severity is
`"critical"`, not the claimed `"warning"`: unrecognized severities are
carried through verbatim. -/
theorem c5_counterexample :
    validate_with_rules (fun _ => true) (fun _ _ _ => false) { sku_id := "s" }
      [.dict { id? := Option.some "R", section? := Option.some "title",
               type? := Option.some "image_constraint",
               severity? := Option.some "critical" }] =
      .ok [{ sec := "title", rule_id := "R", passed := true, message := "R",
             citation := Option.none, severity := "critical" }] ∧
    ("critical" : String) ≠ "warning" := by
  exact ⟨rfl, by decide⟩

/-- Claim C5 (amended) : the severity carried on an emitted finding is the
rule's severity verbatim — even when it is not one of {info, warning,
error}; only a mapping that omits the `severity` key normalizes to
`"warning"`.  The last conjunct states this over a whole
`validate_with_rules` run: every finding it returns carries, verbatim, the
severity of the rule it was normalized from. -/
theorem c5_severity_verbatim :
    (∀ d r, _as_rule (.dict d) = .ok r → r.severity = d.severity?.getD "warning") ∧
    (∀ rule b, (mkFinding rule b).severity = rule.severity) ∧
    (∀ reValid reSearch sku raw rule f, _as_rule raw = .ok rule →
      evalRule reValid reSearch sku raw = .ok (Option.some f) →
      f.severity = rule.severity) ∧
    (∀ reValid reSearch sku rules fs,
      validate_with_rules reValid reSearch sku rules = .ok fs →
      ∀ f ∈ fs, ∃ raw ∈ rules, ∃ rule, _as_rule raw = .ok rule ∧
        f.severity = rule.severity) := by
  refine ⟨?_, ?_, ?_, ?_⟩
  · intro d r h
    rw [_as_rule] at h
    split at h
    · exact absurd h (by simp)
    · split at h
      · exact absurd h (by simp)
      · split at h
        · exact absurd h (by simp)
        · simp only [Except.ok.injEq] at h
          subst h
          rfl
  · intro rule b
    exact mkFinding_severity rule b
  · intro reValid reSearch sku raw rule f hr h
    rw [evalRule_eq reValid reSearch sku raw rule hr] at h
    split at h
    · exact absurd h (by simp)
    · split at h
      · exact absurd h (by simp)
      · split at h
        · exact absurd h (by simp)
        · simp only [Except.ok.injEq, Option.some.injEq] at h
          subst h
          exact mkFinding_severity rule _
  · intro reValid reSearch sku rules fs h f hf
    rw [validate_ok_filterMap reValid reSearch sku rules fs h] at hf
    obtain ⟨raw, hraw, heo⟩ := List.mem_filterMap.mp hf
    cases hra : _as_rule raw with
    | error e =>
      have hev : evalRule reValid reSearch sku raw = .error e := by
        rw [evalRule, hra]
      rw [evalRuleO, hev] at heo
      exact absurd heo (by simp)
    | ok rule =>
      refine ⟨raw, hraw, rule, hra, ?_⟩
      rw [evalRuleO_eq reValid reSearch sku raw rule hra] at heo
      split at heo
      · exact absurd heo (by simp)
      · split at heo
        · exact absurd heo (by simp)
        · split at heo
          · exact absurd heo (by simp)
          · simp only [Option.some.injEq] at heo
            rw [← heo]
            exact mkFinding_severity rule _

theorem c5_severity_verbatim_witness :
    ({ id := "R", sec := "title", ty := "image_constraint", params := [],
       severity := "critical" } : Rule).severity = "critical" ∧
    (mkFinding { id := "R", sec := "title", ty := "image_constraint", params := [],
                 severity := "critical" } true).severity = "critical" ∧
    (∃ raw ∈ ([.rule { id := "R", sec := "title", ty := "image_constraint",
                       params := [], severity := "critical" }] : List RuleLike),
      ∃ rule, _as_rule raw = .ok rule ∧
        ({ sec := "title", rule_id := "R", passed := true, message := "R",
           citation := Option.none, severity := "critical" } : Finding).severity =
          rule.severity) := by
  refine ⟨?_, ?_, ?_⟩
  · exact c5_severity_verbatim.1
      { id? := Option.some "R", section? := Option.some "title",
        type? := Option.some "image_constraint", severity? := Option.some "critical" }
      { id := "R", sec := "title", ty := "image_constraint", params := [],
        severity := "critical" } rfl
  · exact c5_severity_verbatim.2.1
      { id := "R", sec := "title", ty := "image_constraint", params := [],
        severity := "critical" } true
  · exact c5_severity_verbatim.2.2.2 (fun _ => true) (fun _ _ _ => false)
      { sku_id := "s" }
      [.rule { id := "R", sec := "title", ty := "image_constraint",
               params := [], severity := "critical" }]
      [{ sec := "title", rule_id := "R", passed := true, message := "R",
         citation := Option.none, severity := "critical" }] rfl
      { sec := "title", rule_id := "R", passed := true, message := "R",
        citation := Option.none, severity := "critical" }
      (List.mem_singleton.mpr rfl)

/-- Claim C6 counterexample : the whitespace-only item `" "` is non-empty and
its trimmed form is empty — it has no trimmed trailing character at all, so
the claim's pass condition holds — yet `check_no_ending_punct` returns
false on it (the Python expression `rstrip() and ...` is falsy there). -/
theorem c6_counterexample :
    check_no_ending_punct (.list [" ".data]) [] = .ok false ∧
    " ".data ≠ ([] : Str) ∧
    " ".data.reverse.dropWhile isPySpace = ([] : Str) := by
  exact ⟨rfl, by decide, by decide⟩

/-- Claim C6 (amended) : with the punctuation parameter `ps` (default
`".;:!"`), `check_no_ending_punct` returns true iff every item is empty or
trims (on the right) to a non-empty string whose trailing character is not
in the punctuation set; a non-empty item that trims to nothing counts as a
violation.  In particular it fails on `["Keeps pets hydrated."]` and passes
on `["Keeps pets hydrated"]` (see the witness). -/
theorem c6_no_ending_punct (xs : List Str) (ps : Str) (p : Params)
    (h : pget p "punctuation" = Option.some (.str ps) ∨
         (pget p "punctuation" = Option.none ∧ ps = ".;:!".data)) :
    (check_no_ending_punct (.list xs) p = .ok true ↔
      ∀ it ∈ xs, it = [] ∨
        ∃ c rest, it.reverse.dropWhile isPySpace = c :: rest ∧ c ∉ ps) ∧
    (check_no_ending_punct (.list xs) p = .ok false ↔
      ¬ ∀ it ∈ xs, it = [] ∨
        ∃ c rest, it.reverse.dropWhile isPySpace = c :: rest ∧ c ∉ ps) := by
  have e : check_no_ending_punct (.list xs) p =
      .ok (xs.all fun it =>
        it.isEmpty ||
          (match it.reverse.dropWhile isPySpace with
           | [] => false
           | c :: _ => !ps.contains c)) := by
    rcases h with h | ⟨h, rfl⟩ <;> rw [check_no_ending_punct] <;> rw [h] <;> rfl
  have core : (xs.all fun it =>
      it.isEmpty ||
        (match it.reverse.dropWhile isPySpace with
         | [] => false
         | c :: _ => !ps.contains c)) = true ↔
      ∀ it ∈ xs, it = [] ∨
        ∃ c rest, it.reverse.dropWhile isPySpace = c :: rest ∧ c ∉ ps := by
    rw [List.all_eq_true]
    refine forall_congr' fun it => imp_congr_right fun _ => ?_
    simp only [Bool.or_eq_true, List.isEmpty_iff]
    refine or_congr Iff.rfl ?_
    cases hdw : it.reverse.dropWhile isPySpace with
    | nil => simp [hdw]
    | cons c rest => simp [hdw, List.cons.injEq]
  rw [e]
  simp only [Except.ok.injEq]
  refine ⟨core, ?_⟩
  rw [Bool.eq_false_iff, Ne, core]

theorem c6_no_ending_punct_witness :
    check_no_ending_punct (.list ["Keeps pets hydrated".data]) [] = .ok true ∧
    check_no_ending_punct (.list ["Keeps pets hydrated.".data]) [] = .ok false := by
  constructor
  · refine (c6_no_ending_punct ["Keeps pets hydrated".data] (".;:!".data) []
      (Or.inr ⟨rfl, rfl⟩)).1.mpr ?_
    intro it hit
    rw [List.mem_singleton] at hit
    subst hit
    right
    exact ⟨'d', "etardyh step speeK".data, by decide, by decide⟩
  · refine (c6_no_ending_punct ["Keeps pets hydrated.".data] (".;:!".data) []
      (Or.inr ⟨rfl, rfl⟩)).2.mpr ?_
    intro hall
    rcases hall "Keeps pets hydrated.".data (List.mem_singleton.mpr rfl) with
      hnil | ⟨c, rest, hc, hmem⟩
    · exact absurd hnil (by decide)
    · rw [show "Keeps pets hydrated.".data.reverse.dropWhile isPySpace =
          '.' :: "detardyh step speeK".data from by decide] at hc
      rw [List.cons.injEq] at hc
      exact hmem (hc.1 ▸ (by decide : ('.' : Char) ∈ ".;:!".data))

theorem marketOk_iff (sc : Scope) (market : String) :
    marketOk sc market = true ↔
      (sc.market? = Option.none ∨ sc.market? = Option.some [] ∨
        ∃ l, sc.market? = Option.some l ∧ market ∈ l) := by
  rcases hm : sc.market? with - | l
  · simp [marketOk, hm]
  · cases l with
    | nil => simp [marketOk, hm]
    | cons x t => simp [marketOk, hm]

theorem any2_iff (cats want : List Str) :
    ((cats.map _norm).any fun a =>
        (((want.filter fun c => !c.isEmpty).map _norm).any fun b =>
          a = b || hasSub b a || hasSub a b)) = true ↔
      ∃ a ∈ cats, ∃ b ∈ want, b ≠ [] ∧
        (_norm a = _norm b ∨ hasSub (_norm b) (_norm a) = true ∨
         hasSub (_norm a) (_norm b) = true) := by
  constructor
  · intro h
    rw [List.any_eq_true] at h
    obtain ⟨a', ha', hinner⟩ := h
    rw [List.mem_map] at ha'
    obtain ⟨a, ha, rfl⟩ := ha'
    rw [List.any_eq_true] at hinner
    obtain ⟨b', hb', hm⟩ := hinner
    rw [List.mem_map] at hb'
    obtain ⟨b, hbf, rfl⟩ := hb'
    rw [List.mem_filter] at hbf
    obtain ⟨hb, hbne⟩ := hbf
    refine ⟨a, ha, b, hb, by simpa using hbne, by simpa [or_assoc] using hm⟩
  · rintro ⟨a, ha, b, hb, hbne, hm⟩
    rw [List.any_eq_true]
    refine ⟨_norm a, List.mem_map.mpr ⟨a, ha, rfl⟩, ?_⟩
    rw [List.any_eq_true]
    refine ⟨_norm b,
      List.mem_map.mpr ⟨b, List.mem_filter.mpr ⟨hb, by simpa using hbne⟩, rfl⟩,
      by simpa [or_assoc] using hm⟩

theorem cat_match_iff (rsc : Option (List Str)) (want : List Str) :
    _cat_match rsc want = true ↔
      (want = [] ∨ rsc = Option.none ∨ rsc = Option.some [] ∨
        ∃ cats, rsc = Option.some cats ∧ ∃ a ∈ cats, ∃ b ∈ want, b ≠ [] ∧
          (_norm a = _norm b ∨ hasSub (_norm b) (_norm a) = true ∨
           hasSub (_norm a) (_norm b) = true)) := by
  cases want with
  | nil => simp [_cat_match]
  | cons w ws =>
    rcases hc : rsc with - | cats
    · simp [_cat_match, hc]
    · cases cats with
      | nil => simp [_cat_match, hc]
      | cons a0 as =>
        have e : _cat_match (Option.some (a0 :: as)) (w :: ws) =
            (((a0 :: as).map _norm).any fun a =>
              ((((w :: ws).filter fun c => !c.isEmpty).map _norm).any fun b =>
                a = b || hasSub b a || hasSub a b)) := rfl
        rw [e, any2_iff]
        constructor
        · intro hP
          exact Or.inr (Or.inr (Or.inr ⟨a0 :: as, rfl, hP⟩))
        · rintro (h | h | h | ⟨cats', hcats', hP⟩)
          · exact absurd h (by simp)
          · exact absurd h (by simp)
          · exact absurd h (by simp)
          · rw [Option.some.injEq] at hcats'
            subst hcats'
            exact hP

/-- Claim C2 counterexample : with requested categories `[""]`, the claim's
condition holds for a rule scoped to `["dog"]` — the empty string is a
substring of `"dog"` — yet `select_rules` excludes the rule, because
`_cat_match` drops empty requested categories before matching. -/
theorem c2_counterexample :
    select_rules
      [⟨[("policy_id", "P1")],
        [{ scope? := Option.some { categories? := Option.some ["dog".data] } }]⟩]
      "AE" [[]] = [] ∧
    c2ClaimIncluded
      { scope? := Option.some { categories? := Option.some ["dog".data] } }
      "AE" [[]] = true := by
  exact ⟨rfl, rfl⟩

/-- Claim C2 (amended) : `select_rules` includes (the policy-id-annotated copy
of) a rule iff its scope passes the market test — no `market` list (absent
or empty), or exact membership of the requested market — and the category
test: empty request, no scoped `categories` list (absent or empty), or some
**non-empty** requested category matching some scoped category after
normalization (strip + lower) by equality or substring containment in
either direction.  Requested categories that are empty strings are dropped
before matching and never match anything. -/
theorem c2_select_rules_mem (packs : List Pack) (market : String)
    (categories : List Str) (r' : RuleDict) :
    r' ∈ select_rules packs market categories ↔
      ∃ p ∈ packs, ∃ r ∈ p.rules,
        r' = { r with policy_id? :=
                 Option.some ((dget p.meta "policy_id").getD "unknown_policy") } ∧
        ((r.scope?.getD {}).market? = Option.none ∨
         (r.scope?.getD {}).market? = Option.some [] ∨
         ∃ l, (r.scope?.getD {}).market? = Option.some l ∧ market ∈ l) ∧
        (categories = [] ∨
         (r.scope?.getD {}).categories? = Option.none ∨
         (r.scope?.getD {}).categories? = Option.some [] ∨
         ∃ cats, (r.scope?.getD {}).categories? = Option.some cats ∧
           ∃ a ∈ cats, ∃ b ∈ categories, b ≠ [] ∧
             (_norm a = _norm b ∨ hasSub (_norm b) (_norm a) = true ∨
              hasSub (_norm a) (_norm b) = true)) := by
  induction packs with
  | nil => simp [select_rules]
  | cons p ps ih =>
    rw [select_rules, List.mem_append, ih]
    constructor
    · rintro (hhd | ⟨p', hp', rest⟩)
      · rw [List.mem_map] at hhd
        obtain ⟨r, hrf, rfl⟩ := hhd
        rw [List.mem_filter] at hrf
        obtain ⟨hr, hcond⟩ := hrf
        rw [Bool.and_eq_true, marketOk_iff, cat_match_iff] at hcond
        exact ⟨p, List.mem_cons_self p ps, r, hr, rfl, hcond.1, hcond.2⟩
      · exact ⟨p', List.mem_cons_of_mem p hp', rest⟩
    · rintro ⟨p', hp', r, hr, rfl, hmkt, hcat⟩
      rcases List.mem_cons.mp hp' with rfl | hp'
      · left
        rw [List.mem_map]
        refine ⟨r, ?_, rfl⟩
        rw [List.mem_filter]
        exact ⟨hr, by rw [Bool.and_eq_true, marketOk_iff, cat_match_iff]; exact ⟨hmkt, hcat⟩⟩
      · exact Or.inr ⟨p', hp', r, hr, rfl, hmkt, hcat⟩

theorem dget_cons (k' : String) (v' : String) (m : Meta) (k : String) :
    dget ((k', v') :: m) k = if k' = k then Option.some v' else dget m k := by
  rw [dget, List.find?]
  by_cases h : k' = k <;> simp [h, dget]

theorem dget_append (a b : Meta) (k : String) :
    dget (a ++ b) k =
      (match dget a k with
       | Option.some v => Option.some v
       | Option.none => dget b k) := by
  induction a with
  | nil => simp [dget]
  | cons kv a' ih =>
    rw [List.cons_append, dget_cons, dget_cons]
    by_cases h : kv.1 = k <;> simp [h, ih]

theorem dget_map_upd_ne (m : Meta) (k : String) (v : String) (k' : String)
    (hne : k ≠ k') :
    dget (m.map fun kv => if kv.1 = k then (k, v) else kv) k' = dget m k' := by
  induction m with
  | nil => rfl
  | cons kv m' ih =>
    rw [List.map_cons, dget_cons]
    by_cases h : kv.1 = k
    · rw [if_pos h, dget_cons, if_neg hne, if_neg (h ▸ hne), ih]
    · rw [if_neg h, dget_cons, ih]

theorem dget_map_upd_self (m : Meta) (k : String) (v : String)
    (h : (dget m k).isSome = true) :
    dget (m.map fun kv => if kv.1 = k then (k, v) else kv) k = Option.some v := by
  induction m with
  | nil => simp [dget] at h
  | cons kv m' ih =>
    rw [List.map_cons, dget_cons]
    by_cases hk : kv.1 = k
    · simp [hk]
    · rw [dget_cons, if_neg hk] at h
      simp [hk, ih h]

theorem dget_dset (m : Meta) (k : String) (v : String) (k' : String) :
    dget (dset m k v) k' = if k = k' then Option.some v else dget m k' := by
  rw [dset]
  by_cases hs : (dget m k).isSome
  · rw [if_pos hs]
    by_cases hk : k = k'
    · subst hk
      rw [if_pos rfl, dget_map_upd_self m k v hs]
    · rw [if_neg hk, dget_map_upd_ne m k v k' hk]
  · rw [if_neg hs, dget_append]
    rw [Option.not_isSome_iff_eq_none] at hs
    by_cases hk : k = k'
    · subst hk
      rw [hs, dget_cons]
      simp
    · rw [dget_cons]
      simp only [if_neg hk]
      cases dget m k' <;> rfl

theorem dget_filter_keep (a b : Meta) (k : String) (h : dget a k = Option.none) :
    dget (b.filter fun kv => (dget a kv.1).isNone) k = dget b k := by
  induction b with
  | nil => rfl
  | cons kv b' ih =>
    rw [List.filter_cons]
    by_cases hk : kv.1 = k
    · have hkeep : (dget a kv.1).isNone = true := by rw [hk, h]; rfl
      rw [if_pos hkeep, dget_cons, dget_cons, if_pos hk, if_pos hk]
    · cases hcond : (dget a kv.1).isNone with
      | true =>
        rw [if_pos rfl, dget_cons, if_neg hk, dget_cons, if_neg hk, ih]
      | false =>
        rw [if_neg (by simp), dget_cons, if_neg hk, ih]

theorem dget_dictUnion (a b : Meta) (k : String) :
    dget (dictUnion a b) k =
      (match dget a k with
       | Option.some v => Option.some ((dget b k).getD v)
       | Option.none => dget b k) := by
  rw [dictUnion, dget_append]
  cases ha : dget a k with
  | none =>
    have hmap : dget (a.map fun kv => (kv.1, (dget b kv.1).getD kv.2)) k =
        Option.none := by
      induction a with
      | nil => rfl
      | cons kv a' ih =>
        rw [dget_cons] at ha
        rw [List.map_cons, dget_cons]
        by_cases hkk : kv.1 = k
        · rw [if_pos hkk] at ha
          exact absurd ha (by simp)
        · rw [if_neg hkk] at ha
          have h2 : ¬((kv.1, (dget b kv.1).getD kv.2).1 = k) := hkk
          rw [if_neg h2, ih ha]
    rw [hmap, dget_filter_keep a b k ha]
  | some v =>
    have hmap : dget (a.map fun kv => (kv.1, (dget b kv.1).getD kv.2)) k =
        Option.some ((dget b k).getD v) := by
      induction a with
      | nil => simp [dget] at ha
      | cons kv a' ih =>
        rw [dget_cons] at ha
        rw [List.map_cons, dget_cons]
        by_cases hkk : kv.1 = k
        · rw [if_pos hkk] at ha
          have h2 : ((kv.1, (dget b kv.1).getD kv.2).1 = k) := hkk
          rw [if_pos h2]
          simp only [Option.some.injEq] at ha ⊢
          rw [← ha, hkk]
        · rw [if_neg hkk] at ha
          have h2 : ¬((kv.1, (dget b kv.1).getD kv.2).1 = k) := hkk
          rw [if_neg h2, ih ha]
    rw [hmap]

theorem dget_defaultPolicyId (m : Meta) (n : String) (k : String) :
    dget (defaultPolicyId m n) k =
      if "policy_id" = k then
        Option.some
          (match dget m "policy_id" with
           | Option.none => n
           | Option.some v => if v = "" then n else v)
      else dget m k := by
  rw [defaultPolicyId]
  cases h : dget m "policy_id" with
  | none => rw [dget_dset]
  | some v =>
    by_cases hv : v = ""
    · simp [hv, dget_dset]
    · by_cases hk : "policy_id" = k
      · subst hk
        simp [hv, h]
      · simp [hv, hk]

/-- Claim C7 : for a pack directory whose rules document and sibling metadata
document both provide a `meta` mapping, `load_all_rules` (via its loop body
`processDir`) merges the two with the metadata document's values winning on
overlapping keys and the rules document's `meta` as underlay; and the
resulting `policy_id` is the subdirectory's name whenever the merged
mapping lacks one or carries an empty one, else the merged value. -/
theorem c7_meta_merge (e : DirEntry) (rm mm : Meta)
    (rr? mr? : Option (List RuleDict))
    (hdir : e.isDir = true)
    (hrules : e.rulesFile = .parsed (.dict (Option.some (MVal.dict rm)) rr?))
    (hmeta : e.metaFile = .parsed (.dict (Option.some (MVal.dict mm)) mr?)) :
    processDir e = .ok (Option.some
      ⟨defaultPolicyId (dictUnion rm mm) e.name, rr?.getD []⟩) ∧
    (∀ k, k ≠ "policy_id" →
      dget (defaultPolicyId (dictUnion rm mm) e.name) k =
        (match dget mm k with
         | Option.some v => Option.some v
         | Option.none => dget rm k)) ∧
    dget (defaultPolicyId (dictUnion rm mm) e.name) "policy_id" =
      Option.some
        (match (match dget mm "policy_id" with
                | Option.some v => Option.some v
                | Option.none => dget rm "policy_id") with
         | Option.none => e.name
         | Option.some v => if v = "" then e.name else v) := by
  refine ⟨?_, ?_, ?_⟩
  · rw [processDir, hdir, hrules, hmeta]
    rfl
  · intro k hk
    rw [dget_defaultPolicyId, if_neg (fun h => hk h.symm), dget_dictUnion]
    cases dget rm k <;> cases hbk : dget mm k <;> simp [hbk]
  · rw [dget_defaultPolicyId, if_pos rfl, dget_dictUnion]
    cases dget rm "policy_id" <;> cases hbk : dget mm "policy_id" <;> simp [hbk]

theorem c7_meta_merge_witness :
    processDir
      { name := "packA", isDir := true,
        rulesFile := .parsed (.dict
          (Option.some (MVal.dict [("policy_id", "x"), ("k", "1")])) Option.none),
        metaFile := .parsed (.dict
          (Option.some (MVal.dict [("policy_id", ""), ("j", "2")])) Option.none) } =
      .ok (Option.some ⟨[("policy_id", "packA"), ("k", "1"), ("j", "2")], []⟩) := by
  have h := (c7_meta_merge
    { name := "packA", isDir := true,
      rulesFile := .parsed (.dict
        (Option.some (MVal.dict [("policy_id", "x"), ("k", "1")])) Option.none),
      metaFile := .parsed (.dict
        (Option.some (MVal.dict [("policy_id", ""), ("j", "2")])) Option.none) }
    [("policy_id", "x"), ("k", "1")] [("policy_id", ""), ("j", "2")]
    Option.none Option.none rfl rfl rfl).1
  rw [h]
  rfl




/-- Claim C3 (amended) : whenever `validate_with_rules` returns normally, its
findings are exactly, in input order, the per-rule outcomes of the rules
whose section and check type are known — one finding per such rule, and
rules with an unknown section or type contribute nothing.  (As stated the
claim fails: a rule whose check evaluation raises — e.g. a non-numeric
`value` — aborts the call with an exception instead of producing
findings; see the counterexample.) -/
theorem c3_order_preserved (reValid : Str → Bool) (reSearch : Str → Bool → Str → Bool)
    (sku : SKU) (rules : List RuleLike) (fs : List Finding)
    (h : validate_with_rules reValid reSearch sku rules = .ok fs) :
    fs = rules.filterMap (evalRuleO reValid reSearch sku) ∧
    (∀ raw ∈ rules, ∀ rule, _as_rule raw = .ok rule →
      ((evalRuleO reValid reSearch sku raw).isSome = true ↔
        ((SECTION_GETTERS rule.sec).isSome = true ∧
         (CHECKS_get reValid reSearch rule.ty).isSome = true))) := by
  refine ⟨validate_ok_filterMap reValid reSearch sku rules fs h, ?_⟩
  intro raw hraw rule hr
  obtain ⟨o, ho⟩ := validate_ok_evalRule reValid reSearch sku rules fs h raw hraw
  rw [evalRuleO_eq reValid reSearch sku raw rule hr]
  rw [evalRule_eq reValid reSearch sku raw rule hr] at ho
  rcases hg : SECTION_GETTERS rule.sec with - | g
  · simp
  · rcases hc : CHECKS_get reValid reSearch rule.ty with - | ck
    · simp
    · rcases he : ck (g sku) rule.params with e | b
      · simp [hg, hc, he] at ho
      · simp [he]

/-- Claim C3 counterexample : a rule whose section (`title`) and check type
(`max_length`) are both known, but whose `value` param is the non-numeric
string `"abc"`, makes `validate_with_rules` raise (`int("abc")` →
`ValueError`): the call yields no findings at all instead of exactly one
finding for this rule. -/
theorem c3_counterexample :
    validate_with_rules (fun _ => true) (fun _ _ _ => false) { sku_id := "s" }
      [.rule { id := "R1", sec := "title", ty := "max_length",
               params := [("value", .str "abc".data)] }] = .error "ValueError" ∧
    (SECTION_GETTERS "title").isSome = true ∧
    (CHECKS_get (fun _ => true) (fun _ _ _ => false) "max_length").isSome = true := by
  exact ⟨rfl, rfl, rfl⟩

theorem c3_order_preserved_witness :
    [({ sec := "title", rule_id := "A", passed := true, message := "A",
        citation := Option.none, severity := "warning" } : Finding)] =
      List.filterMap
        (evalRuleO (fun _ => true) (fun _ _ _ => false) { sku_id := "s" })
        [.rule { id := "A", sec := "title", ty := "image_constraint", params := [] },
         .rule { id := "B", sec := "title", ty := "unknown_check", params := [] }] := by
  exact (c3_order_preserved (fun _ => true) (fun _ _ _ => false) { sku_id := "s" }
    [.rule { id := "A", sec := "title", ty := "image_constraint", params := [] },
     .rule { id := "B", sec := "title", ty := "unknown_check", params := [] }]
    [{ sec := "title", rule_id := "A", passed := true, message := "A",
       citation := Option.none, severity := "warning" }] rfl).1

theorem rx_ok_of (rv : Str → Bool) (pat flags : PVal)
    (h : (pat.falsy ||
          match pat, flags with
          | .str ps, .str _ => rv ps
          | _, _ => false) = true) :
    pat.falsy = true ∨ ∃ r, _rx rv pat flags = .ok r := by
  rcases (Bool.or_eq_true _ _).mp h with h1 | h2
  · exact Or.inl h1
  · right
    rcases pat with n | ps | b | _ <;> rcases flags with n2 | fs | b2 | _ <;> simp at h2
    exact ⟨(ps, (lowerL fs).contains 'i'), by
      simp only [_rx, h2, if_pos]
      rfl⟩

theorem check_ok_of_paramsOk (rv : Str → Bool) (rs : Str → Bool → Str → Bool)
    (ty : String) (p : Params) (ck : Val → Params → Except String Bool)
    (hck : CHECKS_get rv rs ty = Option.some ck)
    (hp : paramsOkFor rv ty p = true) (v : Val) :
    exOk (ck v p) = true := by
  unfold CHECKS_get at hck
  split at hck
  · -- max_length
    simp only [Option.some.injEq] at hck
    subst hck
    simp only [paramsOkFor] at hp
    norm_num at hp
    cases v with
    | list xs => rfl
    | str s =>
      cases hv : pget p "value" with
      | none => simp [check_max_length, hv, exOk]
      | some pv =>
        simp only [hv] at hp
        cases hpy : pyInt pv with
        | error e => rw [hpy] at hp; simp [exOk] at hp
        | ok n => simp [check_max_length, hv, hpy, exOk]
  · -- min_length
    simp only [Option.some.injEq] at hck
    subst hck
    simp only [paramsOkFor] at hp
    norm_num at hp
    cases v with
    | list xs => rfl
    | str s =>
      cases hv : pget p "value" with
      | none => simp [check_min_length, hv, exOk]
      | some pv =>
        simp only [hv] at hp
        cases hpy : pyInt pv with
        | error e => rw [hpy] at hp; simp [exOk] at hp
        | ok n => simp [check_min_length, hv, hpy, exOk]
  · -- max_count
    simp only [Option.some.injEq] at hck
    subst hck
    simp only [paramsOkFor] at hp
    norm_num at hp
    cases v with
    | str s => rfl
    | list xs =>
      cases hv : pget p "value" with
      | none => simp [check_max_count, hv, exOk]
      | some pv =>
        simp only [hv] at hp
        cases hpy : pyInt pv with
        | error e => rw [hpy] at hp; simp [exOk] at hp
        | ok n => simp [check_max_count, hv, hpy, exOk]
  · -- min_count
    simp only [Option.some.injEq] at hck
    subst hck
    simp only [paramsOkFor] at hp
    norm_num at hp
    cases v with
    | str s => rfl
    | list xs =>
      cases hv : pget p "value" with
      | none => simp [check_min_count, hv, exOk]
      | some pv =>
        simp only [hv] at hp
        cases hpy : pyInt pv with
        | error e => rw [hpy] at hp; simp [exOk] at hp
        | ok n => simp [check_min_count, hv, hpy, exOk]
  · -- forbidden_regex
    simp only [Option.some.injEq] at hck
    subst hck
    cases v with
    | list xs => rfl
    | str s =>
      have hp' := rx_ok_of rv ((pget p "pattern").getD PVal.none)
        ((pget p "flags").getD (PVal.str [])) (by simpa [paramsOkFor] using hp)
      rcases hp' with hfal | ⟨r, hr⟩
      · simp [check_forbidden_regex, hfal, exOk]
      · cases hfal : ((pget p "pattern").getD PVal.none).falsy <;>
          simp [check_forbidden_regex, hfal, hr, exOk]
  · -- required_regex
    simp only [Option.some.injEq] at hck
    subst hck
    cases v with
    | list xs => rfl
    | str s =>
      have hp' := rx_ok_of rv ((pget p "pattern").getD PVal.none)
        ((pget p "flags").getD (PVal.str [])) (by simpa [paramsOkFor] using hp)
      rcases hp' with hfal | ⟨r, hr⟩
      · simp [check_required_regex, hfal, exOk]
      · cases hfal : ((pget p "pattern").getD PVal.none).falsy <;>
          simp [check_required_regex, hfal, hr, exOk]
  · -- forbidden_regex_each
    simp only [Option.some.injEq] at hck
    subst hck
    cases v with
    | str s => rfl
    | list xs =>
      have hp' := rx_ok_of rv ((pget p "pattern").getD PVal.none)
        ((pget p "flags").getD (PVal.str [])) (by simpa [paramsOkFor] using hp)
      rcases hp' with hfal | ⟨r, hr⟩
      · simp [check_forbidden_regex_each, hfal, exOk]
      · cases hfal : ((pget p "pattern").getD PVal.none).falsy <;>
          simp [check_forbidden_regex_each, hfal, hr, exOk]
  · -- no_ending_punct
    simp only [Option.some.injEq] at hck
    subst hck
    simp only [paramsOkFor] at hp
    norm_num at hp
    cases v with
    | str s => rfl
    | list xs =>
      rcases hpu : (pget p "punctuation").getD (PVal.str ".;:!".data) with n | ps | b | -
      · simp [hpu] at hp
      · simp [check_no_ending_punct, hpu, exOk]
      · simp [hpu] at hp
      · simp [hpu] at hp
  · -- no_urls_emails
    simp only [Option.some.injEq] at hck
    subst hck
    cases v <;> rfl
  · -- bullets_capitalized
    simp only [Option.some.injEq] at hck
    subst hck
    cases v <;> rfl
  · -- bullets_numbers_as_numerals
    simp only [Option.some.injEq] at hck
    subst hck
    cases v <;> rfl
  · -- image_constraint
    simp only [Option.some.injEq] at hck
    subst hck
    cases v <;> rfl
  · simp at hck

theorem validate_ok_of_good (rv : Str → Bool) (rs : Str → Bool → Str → Bool)
    (sku : SKU) :
    ∀ rules : List RuleLike, (∀ raw ∈ rules, goodRuleLike rv raw = true) →
      ∃ fs, validate_with_rules rv rs sku rules = .ok fs := by
  intro rules
  induction rules with
  | nil => exact fun _ => ⟨[], rfl⟩
  | cons raw rest ih =>
    intro hg
    obtain ⟨fs', hrest⟩ := ih fun r hr => hg r (List.mem_cons_of_mem raw hr)
    have hraw := hg raw (List.mem_cons_self raw rest)
    obtain ⟨rule, hr, hpok⟩ : ∃ rule, _as_rule raw = .ok rule ∧
        paramsOkFor rv rule.ty rule.params = true := by
      cases raw with
      | rule r => exact ⟨r, rfl, by simpa [goodRuleLike] using hraw⟩
      | dict d =>
        rw [goodRuleLike] at hraw
        simp only [Bool.and_eq_true, Option.isSome_iff_exists] at hraw
        obtain ⟨⟨⟨⟨i, hi⟩, s, hs⟩, t, ht⟩, hpar⟩ := hraw
        refine ⟨{ id := i, sec := s, ty := t, params := d.params?.getD [],
                  severity := d.severity?.getD "warning",
                  message := d.message?.getD "", citation := d.citation?,
                  policy_id := d.policy_id?, scope := d.scope? }, ?_, ?_⟩
        · simp [_as_rule, hi, hs, ht]
        · rw [ht] at hpar
          simpa using hpar
    have heval : ∃ o, evalRule rv rs sku raw = .ok o := by
      rw [evalRule_eq rv rs sku raw rule hr]
      rcases hgt : SECTION_GETTERS rule.sec with - | g
      · exact ⟨Option.none, rfl⟩
      · rcases hc : CHECKS_get rv rs rule.ty with - | ck
        · exact ⟨Option.none, rfl⟩
        · have hok := check_ok_of_paramsOk rv rs rule.ty rule.params ck hc hpok (g sku)
          cases he : ck (g sku) rule.params with
          | error e => rw [he] at hok; simp [exOk] at hok
          | ok b => exact ⟨Option.some (mkFinding rule b), by simp [he]⟩
    obtain ⟨o, ho⟩ := heval
    cases o with
    | none =>
      refine ⟨fs', ?_⟩
      rw [validate_with_rules, ho]
      exact hrest
    | some f =>
      refine ⟨f :: fs', ?_⟩
      rw [validate_with_rules]
      simp [ho, hrest]

theorem load_ok_of_dirOk :
    ∀ dirs : List DirEntry, (∀ e ∈ dirs, dirOkB e = true) →
      ∃ ps, load_all_rules dirs = .ok ps := by
  intro dirs
  induction dirs with
  | nil => exact fun _ => ⟨[], rfl⟩
  | cons e rest ih =>
    intro h
    obtain ⟨ps, hrest⟩ := ih fun x hx => h x (List.mem_cons_of_mem e hx)
    have he := h e (List.mem_cons_self e rest)
    rw [dirOkB] at he
    have hproc : ∃ p?, processDir e = .ok p? := by
      by_cases hdir : e.isDir
      · by_cases habs : e.rulesFile = FileState.absent
        · exact ⟨Option.none, by simp [processDir, hdir, habs]⟩
        · rw [if_neg (by simp [hdir, habs])] at he
          rcases hrd : loadOr e.rulesFile with ⟨rm?, rr?⟩ | rrs | bt <;>
            rcases hm : loadOr e.metaFile with ⟨m?, mr?⟩ | mms | bt2 <;>
              rw [hrd, hm] at he <;> try simp at he
          · obtain ⟨h1, h2⟩ := he
            rcases ho1 : orEmpty rm? with a | - | - <;> rw [ho1] at h1 <;> simp at h1
            rcases ho2 : orEmpty m? with b | - | - <;> rw [ho2] at h2 <;> simp at h2
            refine ⟨Option.some ⟨defaultPolicyId (dictUnion a b) e.name,
              rr?.getD []⟩, ?_⟩
            simp [processDir, hdir, habs, hrd, hm, getMetaOr, ho1, ho2]
          · rcases hmv : m?.getD (MVal.dict []) with m | - | - <;>
              rw [hmv] at he <;> simp at he
            refine ⟨Option.some ⟨defaultPolicyId m e.name, rrs⟩, ?_⟩
            simp [processDir, hdir, habs, hrd, hm, getMetaDefault, hmv]
      · exact ⟨Option.none, by simp [processDir, hdir]⟩
    obtain ⟨p?, hp⟩ := hproc
    refine ⟨(match p? with | Option.some p => p :: ps | Option.none => ps), ?_⟩
    rw [load_all_rules]
    simp only [hp, hrest]
    cases p? <;> rfl

/-- Claim C4 counterexample : a malformed pack definition can crash the core:
a `meta.yaml` that parses to a (non-empty) list makes `load_all_rules`
raise `AttributeError` (`meta_doc.get` on a list), instead of yielding
fewer findings. -/
theorem c4_counterexample :
    load_all_rules
      [{ name := "packA", isDir := true,
         rulesFile := .parsed (.dict Option.none (Option.some [])),
         metaFile := .parsed (.list [{}]) }] = .error "AttributeError" := rfl

/-- Claim C4 (amended) : malformed input is only partially recovered: parse
failures become empty packs and missing rules files skip the pack, but an
exception escapes `load_all_rules` on a non-mapping (truthy list or
scalar) document, or a non-mapping `meta` value — the no-crash guarantee
holds exactly when every processed directory's rules document is a mapping
or a rule list, its metadata document a mapping, and every `meta` value a
mapping (`dirOkB`); `validate_with_rules` raises no exception provided
every rule is well-formed (mappings carry `id`/`section`/`type`, a `value`
param is numeric, a `pattern` param is falsy or a compilable string with
string `flags`, `punctuation` is a string).  Outside these conditions an
exception can escape (see the counterexample). -/
theorem c4_no_crash_when_wellformed :
    (∀ dirs : List DirEntry, (∀ e ∈ dirs, dirOkB e = true) →
      ∃ ps, load_all_rules dirs = .ok ps) ∧
    (∀ (reValid : Str → Bool) (reSearch : Str → Bool → Str → Bool) (sku : SKU)
        (rules : List RuleLike), (∀ raw ∈ rules, goodRuleLike reValid raw = true) →
      ∃ fs, validate_with_rules reValid reSearch sku rules = .ok fs) :=
  ⟨load_ok_of_dirOk, fun rv rs sku rules h => validate_ok_of_good rv rs sku rules h⟩

theorem c4_no_crash_when_wellformed_witness :
    (∃ ps, load_all_rules
      [{ name := "packA", isDir := true,
         rulesFile := .parsed (.dict Option.none (Option.some [])),
         metaFile := .absent }] = .ok ps) ∧
    (∃ fs, validate_with_rules (fun _ => true) (fun _ _ _ => false) { sku_id := "s" }
      [.rule { id := "R", sec := "title", ty := "max_length",
               params := [("value", .int 5)] }] = .ok fs) := by
  constructor
  · exact c4_no_crash_when_wellformed.1 _ (by decide)
  · exact c4_no_crash_when_wellformed.2 (fun _ => true) (fun _ _ _ => false)
      { sku_id := "s" } _ (by decide)
